import Mathlib

/-!
Verification of the SVG-to-IconVG generator core (`gen.go`):
the path-data tokenizer/emitter (`genPathData`, `scan`), the coordinate
normalizer (`normalize`), the circle-to-arc expander and the opacity
register allocator (both inside `genPath`), and the per-icon shape loop
(from `genFile`).

The embedding follows the Go source statement by statement.  Machine
floating point (`float32`) is modelled by exact rationals: every numeric
input appearing in the claims (small integers, 0.5, the constants 24, 48
and 255) and every arithmetic step taken on them is exactly representable
in `float32`, so the exact-rational model agrees with the Go program on
those inputs.  Go's `uint8(...)` conversion of a nonnegative float
truncates toward zero, modelled by `truncU8`.  The reader is Go's
`strings.Reader`, including its actual `UnreadByte` behaviour at EOF
(it steps back one byte because only `i > 0` is checked).
-/

namespace ShinyGen

/-- `outSize` from gen.go: the width/height of the generated IconVG space. -/
def outSize : ℚ := 48

/-! ## The reader (`strings.Reader`) -/

/-- A `strings.Reader`: the backing string and the current byte index. -/
structure Rdr where
  s : List Char
  i : Nat
deriving DecidableEq, Repr

/-- `strings.Reader.ReadByte`: at EOF the index is unchanged. -/
def rdRead (r : Rdr) : Option Char × Rdr :=
  match r.s[r.i]? with
  | some c => (some c, ⟨r.s, r.i + 1⟩)
  | none => (none, r)

/-- `strings.Reader.UnreadByte`: decrements the index whenever it is
positive — also right after a failed (EOF) `ReadByte`, which is the
behaviour `scan` actually relies on at end of input. -/
def rdUnread (r : Rdr) : Rdr :=
  if r.i = 0 then r else ⟨r.s, r.i - 1⟩

/-- Length of the leading run of spaces. -/
def countSpaces : List Char → Nat
  | [] => 0
  | c :: rest => if c = ' ' then countSpaces rest + 1 else 0

/-- The manual space-skipping loop at the top of `scan`:
read bytes while they are `' '`; on the first non-space byte,
`UnreadByte` after the read leaves the reader on that byte; on the EOF
read, `UnreadByte` still decrements the index, stepping the reader back
one byte. -/
def scanSkip (r : Rdr) : Rdr :=
  let r1 : Rdr := ⟨r.s, r.i + countSpaces (r.s.drop r.i)⟩
  if r1.s[r1.i]?.isSome then r1 else rdUnread r1

/-- The space skipping done by `fmt.Fscanf` itself before a `%f` verb:
consume spaces, stop at the first non-space without moving past EOF. -/
def fmtSkip (r : Rdr) : Rdr :=
  ⟨r.s, r.i + countSpaces (r.s.drop r.i)⟩

/-- The leading run of decimal digits. -/
def leadDigits : List Char → List Char
  | [] => []
  | c :: rest => if c.isDigit then c :: leadDigits rest else []

/-- Consume a maximal run of decimal digits. -/
def takeDigits (r : Rdr) : List Char × Rdr :=
  let ds := leadDigits (r.s.drop r.i)
  (ds, ⟨r.s, r.i + ds.length⟩)

/-- Decimal value of a digit string. -/
def digitsVal (ds : List Char) : Nat :=
  ds.foldl (fun acc c => acc * 10 + (c.toNat - 48)) 0

/-- `fmt.Fscanf(r, "%f", ...)`: skip spaces, gather a float token
(optional sign, digits, optional fraction, optional exponent) and convert
it; `none` when the token is malformed or input is exhausted (in which
case `scan` leaves the destination argument unchanged). -/
def scanNum (r : Rdr) : Option ℚ × Rdr :=
  let r1 := fmtSkip r
  let sr : ℚ × Rdr :=
    match r1.s[r1.i]? with
    | some '-' => (-1, ⟨r1.s, r1.i + 1⟩)
    | some '+' => (1, ⟨r1.s, r1.i + 1⟩)
    | _ => (1, r1)
  let ip := takeDigits sr.2
  let fp : List Char × Rdr :=
    match ip.2.s[ip.2.i]? with
    | some '.' => takeDigits ⟨ip.2.s, ip.2.i + 1⟩
    | _ => ([], ip.2)
  if ip.1 = [] ∧ fp.1 = [] then (none, fp.2)
  else
    let mant : ℚ := sr.1 * ((digitsVal (ip.1 ++ fp.1) : ℚ) / ((10 : ℚ) ^ fp.1.length))
    match fp.2.s[fp.2.i]? with
    | some 'e' =>
      let er : ℚ × Rdr :=
        match fp.2.s[fp.2.i + 1]? with
        | some '-' => (-1, ⟨fp.2.s, fp.2.i + 2⟩)
        | some '+' => (1, ⟨fp.2.s, fp.2.i + 2⟩)
        | _ => (1, ⟨fp.2.s, fp.2.i + 1⟩)
      let ed := takeDigits er.2
      if ed.1 = [] then (none, ed.2)
      else (some (mant * (10 : ℚ) ^ ((er.1 * (digitsVal ed.1 : ℚ)).num)), ed.2)
    | some 'E' =>
      let er : ℚ × Rdr :=
        match fp.2.s[fp.2.i + 1]? with
        | some '-' => (-1, ⟨fp.2.s, fp.2.i + 2⟩)
        | some '+' => (1, ⟨fp.2.s, fp.2.i + 2⟩)
        | _ => (1, ⟨fp.2.s, fp.2.i + 1⟩)
      let ed := takeDigits er.2
      if ed.1 = [] then (none, ed.2)
      else (some (mant * (10 : ℚ) ^ ((er.1 * (digitsVal ed.1 : ℚ)).num)), ed.2)
    | _ => (some mant, fp.2)

/-- The body of `scan`'s loop, iterating the operand index: skip spaces
(with the EOF-unread quirk) and `Fscanf` a float into `args[i]`; the
`Fscanf` error is ignored, leaving `args[i]` unchanged on failure. -/
def scanArgsGo : Nat → Nat → List ℚ → Rdr → List ℚ × Rdr
  | _, 0, args, r => (args, r)
  | i, k + 1, args, r =>
    let r1 := scanSkip r
    match scanNum r1 with
    | (some v, r2) => scanArgsGo (i + 1) k (args.set i v) r2
    | (none, r2) => scanArgsGo (i + 1) k args r2

/-- `scan(&args, r, n)` from gen.go. -/
def scanArgs (args : List ℚ) (r : Rdr) (n : Nat) : List ℚ × Rdr :=
  scanArgsGo 0 n args r

/-! ## The coordinate normalizer -/

/-- The body of `normalize`'s loop for operand `i`: scale by
`outSize/size`; for absolute operators subtract `outSize/2` and then the
per-axis offset (`offset[i&1]` when the arity is not 1, the x offset for
`H`, the y offset for `V`). -/
def normOne (n : Nat) (op : Char) (size : ℚ) (offset : ℚ × ℚ) (relative : Bool)
    (i : Nat) (a : ℚ) : ℚ :=
  let a1 := a * (outSize / size)
  if relative then a1
  else
    let a2 := a1 - outSize / 2
    if n ≠ 1 then a2 - (if i % 2 = 0 then offset.1 else offset.2)
    else if op = 'H' then a2 - offset.1
    else if op = 'V' then a2 - offset.2
    else a2

/-- Index-tracking recursion over the argument array. -/
def normGo (n : Nat) (op : Char) (size : ℚ) (offset : ℚ × ℚ) (relative : Bool) :
    Nat → List ℚ → List ℚ
  | _, [] => []
  | i, a :: rest =>
    (if i < n then normOne n op size offset relative i a else a)
      :: normGo n op size offset relative (i + 1) rest

/-- `normalize(&args, n, op, size, offset, relative)` from gen.go:
transforms `args[0..n-1]` in place, leaving the rest of the array. -/
def normalize (args : List ℚ) (n : Nat) (op : Char) (size : ℚ) (offset : ℚ × ℚ)
    (relative : Bool) : List ℚ :=
  normGo n op size offset relative 0 args

/-! ## The drawing-command sink -/

/-- One call on the `iconvg.Encoder` sink.  `setCReg` records the
`BlendColor(t, c0, c1)` blend triple. -/
inductive Cmd where
  | setCReg (adj : Nat) (incr : Bool) (t c0 c1 : Nat)
  | startPath (adj : Nat) (x y : ℚ)
  | absLineTo (x y : ℚ)
  | relLineTo (x y : ℚ)
  | absSmoothQuadTo (x y : ℚ)
  | relSmoothQuadTo (x y : ℚ)
  | absQuadTo (x1 y1 x y : ℚ)
  | relQuadTo (x1 y1 x y : ℚ)
  | absSmoothCubeTo (x1 y1 x y : ℚ)
  | relSmoothCubeTo (x1 y1 x y : ℚ)
  | absCubeTo (x1 y1 x2 y2 x y : ℚ)
  | relCubeTo (x1 y1 x2 y2 x y : ℚ)
  | absHLineTo (x : ℚ)
  | relHLineTo (x : ℚ)
  | absVLineTo (y : ℚ)
  | relVLineTo (y : ℚ)
  | closePathAbsMoveTo (x y : ℚ)
  | closePathRelMoveTo (x y : ℚ)
  | relArcTo (rx ry rot : ℚ) (largeArc sweep : Bool) (dx dy : ℚ)
  | closePathEndPath
deriving DecidableEq, Repr

/-! ## The tokenizer/emitter (`genPathData`) -/

/-- Operand count per operator, from the arity switch in `genPathData`;
`none` is the `unknown opcode` error case. -/
def arity (op : Char) : Option Nat :=
  if op = 'L' ∨ op = 'l' ∨ op = 'T' ∨ op = 't' then some 2
  else if op = 'Q' ∨ op = 'q' ∨ op = 'S' ∨ op = 's' then some 4
  else if op = 'C' ∨ op = 'c' then some 6
  else if op = 'H' ∨ op = 'h' ∨ op = 'V' ∨ op = 'v' then some 1
  else if op = 'M' ∨ op = 'm' then some 2
  else if op = 'Z' ∨ op = 'z' then some 0
  else none

/-- The per-operator emission switch in `genPathData`.  Returns the
emitted commands and the updated `started` flag; `M` starts the path on
its first use and close-and-moves afterwards; `Z`/`z` emit nothing. -/
def emitOp (op : Char) (a : List ℚ) (adj : Nat) (started : Bool) :
    List Cmd × Bool :=
  let g := fun (i : Nat) => a.getD i 0
  match op with
  | 'L' => ([.absLineTo (g 0) (g 1)], started)
  | 'l' => ([.relLineTo (g 0) (g 1)], started)
  | 'T' => ([.absSmoothQuadTo (g 0) (g 1)], started)
  | 't' => ([.relSmoothQuadTo (g 0) (g 1)], started)
  | 'Q' => ([.absQuadTo (g 0) (g 1) (g 2) (g 3)], started)
  | 'q' => ([.relQuadTo (g 0) (g 1) (g 2) (g 3)], started)
  | 'S' => ([.absSmoothCubeTo (g 0) (g 1) (g 2) (g 3)], started)
  | 's' => ([.relSmoothCubeTo (g 0) (g 1) (g 2) (g 3)], started)
  | 'C' => ([.absCubeTo (g 0) (g 1) (g 2) (g 3) (g 4) (g 5)], started)
  | 'c' => ([.relCubeTo (g 0) (g 1) (g 2) (g 3) (g 4) (g 5)], started)
  | 'H' => ([.absHLineTo (g 0)], started)
  | 'h' => ([.relHLineTo (g 0)], started)
  | 'V' => ([.absVLineTo (g 0)], started)
  | 'v' => ([.relVLineTo (g 0)], started)
  | 'M' =>
    if started then ([.closePathAbsMoveTo (g 0) (g 1)], started)
    else ([.startPath adj (g 0) (g 1)], true)
  | 'm' => ([.closePathRelMoveTo (g 0) (g 1)], started)
  | _ => ([], started)

/-- The operator-selection switch at the top of `genPathData`'s loop: an
uppercase letter selects an absolute operator, a lowercase letter a
relative one; any other byte is unread and the previous operator
repeats. -/
def selOp (b : Char) (op : Char) (rel : Bool) (r1 : Rdr) : Char × Bool × Rdr :=
  if 'A' ≤ b ∧ b ≤ 'Z' then (b, false, r1)
  else if 'a' ≤ b ∧ b ≤ 'z' then (b, true, r1)
  else (op, rel, rdUnread r1)

/-- The main loop of `genPathData`, with explicit fuel (the Go loop can
fail to make progress only on inputs no material icon contains; all
theorems either run on concrete inputs or hypothesise a successful run).
State: reader, current operator, relative flag, `started` flag and the
persistent six-element argument array. -/
def gpdLoop : Nat → Rdr → Char → Bool → Bool → List ℚ → Nat → ℚ → ℚ × ℚ →
    Except String (List Cmd × Bool)
  | 0, _, _, _, _, _, _, _, _ => .error "out of fuel"
  | fuel + 1, r, op, rel, started, args, adj, size, offset =>
    match rdRead r with
    | (none, _) => .ok ([], started)
    | (some b, r1) =>
      if b = ' ' then gpdLoop fuel r1 op rel started args adj size offset
      else
        let s3 : Char × Bool × Rdr := selOp b op rel r1
        match arity s3.1 with
        | none => .error ("unknown opcode " ++ String.mk [b])
        | some n =>
          let sc := scanArgs args s3.2.2 n
          let args2 := normalize sc.1 n s3.1 size offset s3.2.1
          let em := emitOp s3.1 args2 adj started
          match gpdLoop fuel sc.2 s3.1 s3.2.1 em.2 args2 adj size offset with
          | .error e => .error e
          | .ok (rest, st) => .ok (em.1 ++ rest, st)

/-- The `strings.HasSuffix(pathData, "z")` strip at the top of
`genPathData`: only a lowercase trailing `z` is removed. -/
def stripZ (d : List Char) : List Char :=
  if d.getLast? = some 'z' then d.dropLast else d

/-- Fuel that dominates every terminating run on the given data. -/
def pdFuel (d : List Char) : Nat := d.length * 2 + 2

/-- `genPathData(enc, adj, pathData, size, offset)` from gen.go. -/
def genPathData (adj : Nat) (pathData : List Char) (size : ℚ) (offset : ℚ × ℚ) :
    Except String (List Cmd) :=
  let pd := stripZ pathData
  (gpdLoop (pdFuel pd) ⟨pd, 0⟩ (Char.ofNat 0) false false [0, 0, 0, 0, 0, 0]
    adj size offset).map (·.1)

/-! ## Shapes, the register allocator and `genPath` -/

/-- A `<path>` element: `d`, `fill`, `fill-opacity`, `opacity`. -/
structure Path where
  d : List Char
  fill : List Char
  fillOpacity : Option ℚ
  opacity : Option ℚ
deriving DecidableEq, Repr

/-- A `<circle>` element. -/
structure Circle where
  cx : ℚ
  cy : ℚ
  r : ℚ
deriving DecidableEq, Repr

/-- The opacity resolution at the top of `genPath`: `opacity` wins when
present, else `fill-opacity`, else fully opaque (1). -/
def resolveOpacity (p : Path) : ℚ :=
  match p.opacity with
  | some o => o
  | none =>
    match p.fillOpacity with
    | some fo => fo
    | none => 1

/-- Go's `uint8(x)` conversion of a nonnegative `float32`: truncation
toward zero, wrapping modelled mod 256 (all in-range here). -/
def truncU8 (x : ℚ) : Nat := (⌊x⌋).toNat % 256

/-- The register-allocation step in `genPath` (`adjs` is the per-icon
map, kept as an association list in insertion order): opacity 1 is the
sentinel id 0 with no effect; a known value returns its id with no
effect; a fresh value gets id `uint8(len(adjs)+1)` and a one-time
`SetCReg` define effect with blend `BlendColor(uint8(opacity*0xff),
0x7f, 0x80)`. -/
def allocStep (adjs : List (ℚ × Nat)) (opacity : ℚ) :
    List (ℚ × Nat) × Nat × List Cmd :=
  if opacity = 1 then (adjs, 0, [])
  else
    match adjs.lookup opacity with
    | some a => (adjs, a, [])
    | none =>
      let a := (adjs.length + 1) % 256
      (adjs ++ [(opacity, a)], a,
        [.setCReg a false (truncU8 (opacity * 255)) 0x7f 0x80])

/-- The circle loop from `genPath`: normalize the centre and radius,
start the path at `(cx - r, cy)` when none is open (else close-and-move
there), then two 180-degree relative arcs `+2r` and `-2r` along x. -/
def circleSteps (adj : Nat) (size : ℚ) (offset : ℚ × ℚ) :
    Bool → List Circle → List Cmd
  | _, [] => []
  | need, c :: rest =>
    let cx := c.cx * (outSize / size) - (outSize / 2 + offset.1)
    let cy := c.cy * (outSize / size) - (outSize / 2 + offset.2)
    let r := c.r * (outSize / size)
    (if need then Cmd.startPath adj (cx - r) cy
     else Cmd.closePathAbsMoveTo (cx - r) cy)
      :: .relArcTo r r 0 false true (2 * r) 0
      :: .relArcTo r r 0 false true (-(2 * r)) 0
      :: circleSteps adj size offset false rest

/-- `genPath(enc, p, adjs, size, offset, circles)` from gen.go: resolve
the opacity register (possibly emitting its define effect), emit the
path data when present, append the circle expansion, and unconditionally
close-and-end the path.  Returns the commands and the updated map. -/
def genPath (p : Path) (adjs : List (ℚ × Nat)) (size : ℚ) (offset : ℚ × ℚ)
    (circles : List Circle) : Except String (List Cmd × List (ℚ × Nat)) :=
  let al := allocStep adjs (resolveOpacity p)
  let needStartPath := p.d = []
  match (if p.d = [] then Except.ok [] else genPathData al.2.1 p.d size offset) with
  | .error e => .error e
  | .ok dataCmds =>
    .ok (al.2.2 ++ dataCmds ++ circleSteps al.2.1 size offset needStartPath circles
          ++ [.closePathEndPath], al.1)

/-- The `skippedPaths` table from gen.go, keyed on the `d` attribute,
giving the `fill` that must also match. -/
def skippedPaths (d : List Char) : Option (List Char) :=
  if d = "M16 34h22v4H16z".toList then some "#fff".toList
  else if d = "M20.36 18".toList then some "".toList
  else none

/-- The per-icon shape loop from `genFile` (lines 377-392): skip paths
matching the skip table, hand the circle list to the first emitted path,
and emit a circles-only path when no path consumed them. -/
def genShapes : List Path → List Circle → List (ℚ × Nat) → ℚ → ℚ × ℚ →
    Except String (List Cmd × List (ℚ × Nat))
  | [], circles, adjs, size, offset =>
    if circles = [] then .ok ([], adjs)
    else genPath ⟨[], [], none, none⟩ adjs size offset circles
  | p :: rest, circles, adjs, size, offset =>
    if skippedPaths p.d = some p.fill then
      genShapes rest circles adjs size offset
    else
      match genPath p adjs size offset circles with
      | .error e => .error e
      | .ok pr =>
        match genShapes rest [] pr.2 size offset with
        | .error e => .error e
        | .ok qr => .ok (pr.1 ++ qr.1, qr.2)

/-! ## Observations and run descriptions used by the theorems -/

/-- Is the command a `SetCReg` register-define effect? -/
def isSetCReg : Cmd → Bool
  | .setCReg _ _ _ _ _ => true
  | _ => false

/-- Is the command a `StartPath`? -/
def isStartPath : Cmd → Bool
  | .startPath _ _ _ => true
  | _ => false

/-- Is the command the final `ClosePathEndPath`? -/
def isCloseEnd : Cmd → Bool
  | .closePathEndPath => true
  | _ => false

/-- First character after leading spaces. -/
def firstNonSpace (l : List Char) : Option Char :=
  (l.dropWhile (fun c => c = ' ')).head?

/-- The register map after a sequence of per-shape allocation requests. -/
def allocFold (s : List (ℚ × Nat)) (vs : List ℚ) : List (ℚ × Nat) :=
  vs.foldl (fun st v => (allocStep st v).1) s

/-- The (register id, define-effect issued?) observation of each
allocation request in a sequence, starting from map `s`. -/
def allocTraceFrom : List (ℚ × Nat) → List ℚ → List (Nat × Bool)
  | _, [] => []
  | s, v :: rest =>
    ((allocStep s v).2.1, !(allocStep s v).2.2.isEmpty)
      :: allocTraceFrom (allocStep s v).1 rest

/-- The allocation trace of one icon (fresh map). -/
def allocTrace (vs : List ℚ) : List (Nat × Bool) :=
  allocTraceFrom [] vs

/-- The distinct non-default (≠ 1) opacity values of a request list. -/
def distinctOpacities (vs : List ℚ) : List ℚ :=
  (vs.filter (fun v => v ≠ 1)).dedup

/-- 256 pairwise-distinct non-default opacities followed by a default
one: the smallest icon overflowing the 255 register ids. -/
def ovList : List ℚ :=
  ((List.range 256).map (fun n : ℕ => ((n : ℚ) + 1) / 257)) ++ [1]

/-- A register map holding 255 distinct non-default opacities, as built
by 255 fresh allocations. -/
def adjs255 : List (ℚ × Nat) :=
  (List.range 255).map (fun k => (((k : ℕ) : ℚ) + 2, (k + 1) % 256))

/-! ## C1: truncated operand group at end of input -/

/-- C1 counterexample: the claim says tokenizing `"Q 1 2 3"` (arity 4,
three operands) fails with a ParseError; in fact `genPathData` succeeds,
because `scan`'s `UnreadByte` after the EOF read re-exposes the final
byte and `Fscanf` re-reads the last number `3` into the missing operand:
a quad command is emitted with the last operand duplicated. -/
theorem C1_counterexample :
    genPathData 0 ("Q 1 2 3".toList) 24 (0, 0) =
      .ok [.absQuadTo (-22) (-20) (-18) (-18)] := by
  with_unfolding_all rfl

/-- C1 amended: a numeric group with fewer operands than the current
operator's arity at end of input does not fail: the scanner re-reads the
final numeric token into the missing operand and emits the command
(`"Q 1 2 3"` emits one quad whose last operand duplicates the third);
only an unrecognized letter yields a ParseError (`"P 1 2"` errors). -/
theorem C1_amended_theorem :
    genPathData 0 ("Q 1 2 3".toList) 24 (0, 0) =
        .ok [.absQuadTo (-22) (-20) (-18) (-18)]
      ∧ genPathData 0 ("P 1 2".toList) 24 (0, 0) =
        .error "unknown opcode P" := by
  exact ⟨by with_unfolding_all rfl, by with_unfolding_all rfl⟩

/-! ## C4: scenario A -/

/-- C4 counterexample: for path `"M10 10L20 10L20 20Z"` with nativeSize
24 and box origin (0,0), the start-path is emitted at `(10·(48/24)−24,
10·(48/24)−24) = (−4,−4)`, not at `(−14,−14)` as the claim states. -/
theorem C4_counterexample :
    (genPath ⟨"M10 10L20 10L20 20Z".toList, [], none, none⟩ [] 24 (0, 0) []).map
        (fun pr => pr.1.head?) = .ok (some (.startPath 0 (-4) (-4)))
      ∧ ((-4 : ℚ) = -14) = False := by
  exact ⟨by with_unfolding_all rfl, by simp⟩

/-- C4 amended: path `"M10 10L20 10L20 20Z"`, nativeSize 24, box origin
(0,0) emits a start-path at normalized (−4,−4), exactly two absolute
line-to commands (to (16,−4) and (16,16)), then close-and-end-path. -/
theorem C4_theorem :
    genPath ⟨"M10 10L20 10L20 20Z".toList, [], none, none⟩ [] 24 (0, 0) [] =
      .ok ([.startPath 0 (-4) (-4), .absLineTo 16 (-4), .absLineTo 16 16,
            .closePathEndPath], []) := by
  with_unfolding_all rfl

/-! ## C7: the implicit-repeat rule -/

/-- C7: a numeric group without a preceding letter repeats the most
recent operator: for every register id, native size and offset,
tokenizing/emitting `"L 1 2 3 4"` produces exactly the same command
sequence as `"L 1 2 L 3 4"`. -/
theorem C7_theorem (adj : Nat) (size : ℚ) (offset : ℚ × ℚ) :
    genPathData adj ("L 1 2 3 4".toList) size offset =
      genPathData adj ("L 1 2 L 3 4".toList) size offset := by
  simp [genPathData, stripZ, pdFuel, gpdLoop, selOp, rdRead, rdUnread, scanSkip,
    fmtSkip, countSpaces, leadDigits, takeDigits, digitsVal, scanNum, scanArgs,
    scanArgsGo, normalize, normGo, normOne, arity, emitOp, outSize]

/-! ## C2: the blend weight of the define-register effect -/

/-- C2 counterexample: for two shapes both with opacity 0.5, exactly one
register (id 1) is defined, but its blend weight is `uint8(0.5*255) =
uint8(127.5) = 127` — Go float-to-integer conversion truncates — not the
`round(0.5*255) = 128` the claim states. -/
theorem C2_counterexample :
    genShapes [⟨"M 1 2".toList, [], none, some (1/2)⟩,
               ⟨"M 1 2".toList, [], none, some (1/2)⟩] [] [] 24 (0, 0) =
      .ok ([.setCReg 1 false 127 0x7f 0x80, .startPath 1 (-22) (-20),
            .closePathEndPath, .startPath 1 (-22) (-20), .closePathEndPath],
           [((1 : ℚ)/2, 1)])
      ∧ (127 : ℕ) ≠ 128 := by
  exact ⟨by with_unfolding_all rfl, by decide⟩

/-- C2 amended: for every opacity value v in (0,1) not yet registered,
the one-time define-register effect programs the register as a blend
weighted by `⌊v·255⌋` (truncation, not rounding); for two shapes both
with opacity 0.5 exactly one register (id 1) is defined, with blend
weight 127 (ratio 127/255). -/
theorem C2_theorem (v : ℚ) (adjs : List (ℚ × Nat)) (h0 : 0 < v) (h1 : v < 1)
    (hf : adjs.lookup v = none) :
    (allocStep adjs v).2.2 =
        [.setCReg ((adjs.length + 1) % 256) false (⌊v * 255⌋).toNat 0x7f 0x80]
      ∧ genShapes [⟨"M 1 2".toList, [], none, some (1/2)⟩,
                   ⟨"M 1 2".toList, [], none, some (1/2)⟩] [] [] 24 (0, 0) =
          .ok ([.setCReg 1 false 127 0x7f 0x80, .startPath 1 (-22) (-20),
                .closePathEndPath, .startPath 1 (-22) (-20), .closePathEndPath],
               [((1 : ℚ)/2, 1)]) := by
  constructor
  · have hv1 : v ≠ 1 := ne_of_lt h1
    have hflo : (⌊v * 255⌋).toNat < 256 := by
      have h255 : v * 255 < 255 := by nlinarith
      have : ⌊v * 255⌋ < (255 : ℤ) := Int.floor_lt.2 (by exact_mod_cast h255)
      omega
    simp [allocStep, hv1, hf, truncU8, Nat.mod_eq_of_lt hflo]
  · with_unfolding_all rfl

/-- C2 witness: the theorem at `v = 1/2` with the empty register map. -/
theorem C2_witness :
    (0 : ℚ) < 1/2 ∧ (1/2 : ℚ) < 1 ∧
      (allocStep [] (1/2)).2.2 = [.setCReg 1 false 127 0x7f 0x80] := by
  refine ⟨by norm_num, by norm_num, ?_⟩
  have h := (C2_theorem (1/2) [] (by norm_num) (by norm_num) rfl).1
  have hfl : ⌊(1/2 : ℚ) * 255⌋ = 127 := by norm_num
  rw [h, hfl]
  rfl

/-! ## C8: circle expansion -/

/-- C8: expanding a circle starts a path at
`(normalizedCenterX − normalizedRadius, normalizedCenterY)` when no path
is open, else closes the current subpath with a move there; then exactly
two 180° relative arcs, displacing `+2r` then `−2r` along x, both with
equal x/y radii, zero rotation and the same large-arc/sweep flags, so
the combined horizontal displacement is 0; with nativeSize 24 (target
size 48) the normalized arc radii both equal twice the native radius. -/
theorem C8_theorem (adj : Nat) (size : ℚ) (offset : ℚ × ℚ) (c : Circle)
    (rest : List Circle) (need : Bool) :
    (circleSteps adj size offset need (c :: rest) =
        (if need then
          Cmd.startPath adj
            ((c.cx * (outSize / size) - (outSize / 2 + offset.1)) -
              c.r * (outSize / size))
            (c.cy * (outSize / size) - (outSize / 2 + offset.2))
         else
          Cmd.closePathAbsMoveTo
            ((c.cx * (outSize / size) - (outSize / 2 + offset.1)) -
              c.r * (outSize / size))
            (c.cy * (outSize / size) - (outSize / 2 + offset.2)))
          :: .relArcTo (c.r * (outSize / size)) (c.r * (outSize / size)) 0 false true
              (2 * (c.r * (outSize / size))) 0
          :: .relArcTo (c.r * (outSize / size)) (c.r * (outSize / size)) 0 false true
              (-(2 * (c.r * (outSize / size)))) 0
          :: circleSteps adj size offset false rest)
      ∧ (2 * (c.r * (outSize / size))) + (-(2 * (c.r * (outSize / size)))) = 0
      ∧ c.r * (outSize / 24) = 2 * c.r := by
  refine ⟨rfl, by ring, ?_⟩
  have h2 : outSize / 24 = 2 := by norm_num [outSize]
  rw [h2, mul_comm]

/-! ## C10: opacity precedence over fill-opacity -/

/-- C10: when both `opacity` and `fill-opacity` are present, the
`opacity` attribute alone determines the register (the whole emission is
independent of the `fill-opacity` field); `fill-opacity` is consulted
exactly when `opacity` is absent; with both absent the shape resolves to
opacity 1, which allocates the sentinel register 0 with no effect. -/
theorem C10_theorem (d f : List Char) (adjs : List (ℚ × Nat)) (size : ℚ)
    (offset : ℚ × ℚ) (circles : List Circle) (o fov : ℚ) (fo1 fo2 : Option ℚ) :
    genPath ⟨d, f, fo1, some o⟩ adjs size offset circles =
        genPath ⟨d, f, fo2, some o⟩ adjs size offset circles
      ∧ genPath ⟨d, f, some fov, none⟩ adjs size offset circles =
        genPath ⟨d, f, none, some fov⟩ adjs size offset circles
      ∧ resolveOpacity ⟨d, f, none, none⟩ = 1
      ∧ allocStep adjs 1 = (adjs, 0, []) := by
  refine ⟨rfl, rfl, rfl, ?_⟩
  simp [allocStep]

/-! ## C5: the coordinate normalizer -/

/-- Pointwise description of `normGo`. -/
theorem normGo_getElem (n : Nat) (op : Char) (size : ℚ) (offset : ℚ × ℚ)
    (rel : Bool) (args : List ℚ) (i0 j : Nat) :
    (normGo n op size offset rel i0 args)[j]? =
      (args[j]?).map
        (fun a => if i0 + j < n then normOne n op size offset rel (i0 + j) a else a) := by
  induction args generalizing i0 j with
  | nil => simp [normGo]
  | cons a rest ih =>
    cases j with
    | zero => simp [normGo]
    | succ j =>
      simp only [normGo, List.getElem?_cons_succ, ih (i0 + 1) j]
      have harith : i0 + 1 + j = i0 + (j + 1) := by omega
      rw [harith]

/-- C5: `normalize` scales every operand in range by
`targetSize/nativeSize`; for absolute operators it additionally
subtracts `targetSize/2` and the per-axis offset — axis `i mod 2` for
operators with at least two coordinates, the x offset for `H`, the y
offset for `V`; for relative operators only the scaling applies. -/
theorem C5_theorem (args : List ℚ) (n : Nat) (op : Char) (size : ℚ)
    (offset : ℚ × ℚ) (i : Nat) (a : ℚ) (hn : i < n) (ha : args[i]? = some a) :
    ((normalize args n op size offset true)[i]? = some (a * (outSize / size)))
    ∧ (2 ≤ n → (normalize args n op size offset false)[i]? =
        some (a * (outSize / size) - outSize / 2 -
          (if i % 2 = 0 then offset.1 else offset.2)))
    ∧ (n = 1 → op = 'H' → (normalize args n op size offset false)[i]? =
        some (a * (outSize / size) - outSize / 2 - offset.1))
    ∧ (n = 1 → op = 'V' → (normalize args n op size offset false)[i]? =
        some (a * (outSize / size) - outSize / 2 - offset.2)) := by
  refine ⟨?_, ?_, ?_, ?_⟩
  · rw [normalize, normGo_getElem, ha]
    simp [Nat.zero_add, hn, normOne]
  · intro h2
    rw [normalize, normGo_getElem, ha]
    have hne : n ≠ 1 := by omega
    simp [Nat.zero_add, hn, normOne, hne]
  · intro h1 hop
    rw [normalize, normGo_getElem, ha]
    subst h1 hop
    simp [Nat.zero_add, hn, normOne]
  · intro h1 hop
    rw [normalize, normGo_getElem, ha]
    subst h1 hop
    have hi0 : i = 0 := by omega
    subst hi0
    simp [normOne]

/-- C5 witness: the theorem at `args = [10, 20]`, `n = 2`, `op = L`,
nativeSize 24, offset (3, 5), operand index 0. -/
theorem C5_witness :
    ((normalize [10, 20] 2 'L' 24 (3, 5) true)[0]? = some (10 * (outSize / 24)))
    ∧ (2 ≤ 2 → (normalize [10, 20] 2 'L' 24 (3, 5) false)[0]? =
        some (10 * (outSize / 24) - outSize / 2 -
          (if 0 % 2 = 0 then (3 : ℚ) else 5)))
    ∧ (2 = 1 → 'L' = 'H' → (normalize [10, 20] 2 'L' 24 (3, 5) false)[0]? =
        some (10 * (outSize / 24) - outSize / 2 - 3))
    ∧ (2 = 1 → 'L' = 'V' → (normalize [10, 20] 2 'L' 24 (3, 5) false)[0]? =
        some (10 * (outSize / 24) - outSize / 2 - 5)) :=
  C5_theorem [10, 20] 2 'L' 24 (3, 5) 0 10 (by decide) rfl

/-! ## Allocator state lemmas -/

theorem lookup_append_some {l1 l2 : List (ℚ × Nat)} {k : ℚ} {a : Nat}
    (h : l1.lookup k = some a) : (l1 ++ l2).lookup k = some a := by
  induction l1 with
  | nil => simp [List.lookup] at h
  | cons p rest ih =>
    rcases p with ⟨k1, b1⟩
    cases hk : (k == k1) with
    | true => simp_all [List.lookup]
    | false =>
      simp only [List.lookup, hk] at h
      simpa [List.lookup, hk] using ih h

theorem lookup_append_none {l1 l2 : List (ℚ × Nat)} {k : ℚ}
    (h : l1.lookup k = none) : (l1 ++ l2).lookup k = l2.lookup k := by
  induction l1 with
  | nil => simp
  | cons p rest ih =>
    rcases p with ⟨k1, b1⟩
    cases hk : (k == k1) with
    | true => simp [List.lookup, hk] at h
    | false =>
      simp only [List.lookup, hk] at h
      simpa [List.lookup, hk] using ih h

theorem lookup_none_iff {l : List (ℚ × Nat)} {k : ℚ} :
    l.lookup k = none ↔ k ∉ l.map Prod.fst := by
  induction l with
  | nil => simp
  | cons p rest ih =>
    rcases p with ⟨k1, b1⟩
    by_cases hk : k = k1
    · subst hk
      simp [List.lookup]
    · have hb : (k == k1) = false := beq_false_of_ne hk
      simp [List.lookup, hb, ih, hk]

theorem allocStep_state_lookup (s : List (ℚ × Nat)) (v k : ℚ) (a : Nat)
    (h : s.lookup k = some a) : ((allocStep s v).1).lookup k = some a := by
  by_cases h1 : v = 1
  · simpa [allocStep, h1] using h
  · cases hl : s.lookup v with
    | some b => simpa [allocStep, h1, hl] using h
    | none =>
      simp only [allocStep, h1, hl, if_neg h1]
      exact lookup_append_some h

theorem allocFold_lookup_some (vs : List ℚ) (s : List (ℚ × Nat)) (k : ℚ) (a : Nat)
    (h : s.lookup k = some a) : (allocFold s vs).lookup k = some a := by
  induction vs generalizing s with
  | nil => simpa [allocFold] using h
  | cons v rest ih =>
    simp only [allocFold, List.foldl_cons]
    exact ih _ (allocStep_state_lookup s v k a h)

theorem allocStep_self_lookup (s : List (ℚ × Nat)) (v : ℚ) (h1 : v ≠ 1) :
    ((allocStep s v).1).lookup v = some (allocStep s v).2.1 := by
  cases hl : s.lookup v with
  | some b => simp [allocStep, h1, hl]
  | none =>
    have hst : (allocStep s v).1 = s ++ [(v, (s.length + 1) % 256)]
        ∧ (allocStep s v).2.1 = (s.length + 1) % 256 := by
      simp [allocStep, h1, hl]
    rw [hst.1, hst.2, lookup_append_none hl]
    simp [List.lookup]

/-! ## C3: register overflow -/

/-- C3: with 255 registers already allocated, a fresh non-default
opacity is assigned `uint8(255+1) = 0` — the id silently wraps around to
the opaque sentinel and the define effect programs register 0; no
failure is reported (the allocation is total and emission continues). -/
theorem C3_theorem (adjs : List (ℚ × Nat)) (v : ℚ) (h255 : adjs.length = 255)
    (h1 : v ≠ 1) (hf : adjs.lookup v = none) :
    (allocStep adjs v).2.1 = 0
    ∧ (allocStep adjs v).2.2 = [.setCReg 0 false (truncU8 (v * 255)) 0x7f 0x80] := by
  simp [allocStep, h1, hf, h255]

set_option maxRecDepth 4000 in
/-- C3 witness: the theorem at a concrete 255-entry register map. -/
theorem C3_witness :
    adjs255.length = 255 ∧ ((1 : ℚ)/2) ≠ 1 ∧ adjs255.lookup (1/2) = none
    ∧ (allocStep adjs255 (1/2)).2.1 = 0 := by
  have hlen : adjs255.length = 255 := by simp [adjs255]
  have hne : ((1 : ℚ)/2) ≠ 1 := by norm_num
  have hnone : adjs255.lookup (1/2) = none := by
    rw [lookup_none_iff]
    intro hmem
    simp only [adjs255, List.map_map, List.mem_map, Function.comp_apply] at hmem
    obtain ⟨k, hk, hkeq⟩ := hmem
    have hk0 : (0 : ℚ) ≤ (k : ℚ) := Nat.cast_nonneg k
    have h2 : ((k : ℚ) + 2) = 1/2 := hkeq
    nlinarith
  exact ⟨hlen, hne, hnone, (C3_theorem adjs255 (1/2) hlen hne hnone).1⟩

/-! ## Allocation-trace lemmas -/

theorem allocFold_cons (s : List (ℚ × Nat)) (v : ℚ) (rest : List ℚ) :
    allocFold s (v :: rest) = allocFold (allocStep s v).1 rest := rfl

theorem allocFold_append (s : List (ℚ × Nat)) (l1 l2 : List ℚ) :
    allocFold s (l1 ++ l2) = allocFold (allocFold s l1) l2 := by
  simp [allocFold, List.foldl_append]

theorem allocTraceFrom_getElem (vs : List ℚ) (s : List (ℚ × Nat)) (j : Nat) (v : ℚ)
    (hv : vs[j]? = some v) :
    (allocTraceFrom s vs)[j]? =
      some ((allocStep (allocFold s (vs.take j)) v).2.1,
            !(allocStep (allocFold s (vs.take j)) v).2.2.isEmpty) := by
  induction vs generalizing s j with
  | nil => simp at hv
  | cons w rest ih =>
    cases j with
    | zero =>
      simp only [List.getElem?_cons_zero, Option.some.injEq] at hv
      subst hv
      simp [allocTraceFrom, allocFold]
    | succ j =>
      simp only [List.getElem?_cons_succ] at hv
      simp only [allocTraceFrom, List.getElem?_cons_succ, List.take_succ_cons]
      rw [ih _ j hv, allocFold_cons]

theorem allocFold_take_lookup_mono (vs : List ℚ) (k : ℚ) (a : Nat) {i j : Nat}
    (hij : i ≤ j)
    (h : (allocFold [] (vs.take i)).lookup k = some a) :
    (allocFold [] (vs.take j)).lookup k = some a := by
  induction j with
  | zero =>
    have hi0 : i = 0 := by omega
    subst hi0
    exact h
  | succ j ihj =>
    by_cases hij2 : i = j + 1
    · subst hij2
      exact h
    · have hj := ihj (by omega)
      rw [List.take_succ, allocFold_append]
      cases hvj : vs[j]? with
      | none => simpa [hvj, allocFold] using hj
      | some w =>
        simp only [hvj, Option.toList_some]
        exact allocStep_state_lookup _ w k a hj

theorem mem_keys_of_lookup_some {l : List (ℚ × Nat)} {k : ℚ} {a : Nat}
    (h : l.lookup k = some a) : k ∈ l.map Prod.fst := by
  by_contra hc
  rw [← lookup_none_iff] at hc
  simp [hc] at h

theorem mem_keys_allocFold (vs : List ℚ) (s : List (ℚ × Nat)) (k : ℚ) :
    k ∈ (allocFold s vs).map Prod.fst ↔
      k ∈ s.map Prod.fst ∨ (k ∈ vs ∧ k ≠ 1) := by
  induction vs generalizing s with
  | nil => simp [allocFold]
  | cons v rest ih =>
    rw [allocFold_cons, ih]
    by_cases h1 : v = 1
    · subst h1
      simp only [allocStep, if_pos rfl, List.mem_cons]
      constructor
      · rintro (hs | ⟨hr, hk⟩)
        · exact Or.inl hs
        · exact Or.inr ⟨Or.inr hr, hk⟩
      · rintro (hs | ⟨hkr, hk⟩)
        · exact Or.inl hs
        · rcases hkr with hk1 | hr
          · exact absurd hk1 hk
          · exact Or.inr ⟨hr, hk⟩
    · cases hl : s.lookup v with
      | some b =>
        have hvmem : v ∈ s.map Prod.fst := mem_keys_of_lookup_some hl
        simp only [allocStep, if_neg h1, hl, List.mem_cons]
        constructor
        · rintro (hs | ⟨hr, hk⟩)
          · exact Or.inl hs
          · exact Or.inr ⟨Or.inr hr, hk⟩
        · rintro (hs | ⟨hkr, hk⟩)
          · exact Or.inl hs
          · rcases hkr with hkv | hr
            · subst hkv; exact Or.inl hvmem
            · exact Or.inr ⟨hr, hk⟩
      | none =>
        simp only [allocStep, if_neg h1, hl, List.map_append, List.mem_append,
          List.map_cons, List.map_nil, List.mem_singleton, List.mem_cons]
        constructor
        · rintro ((hs | (hkv | hnil)) | ⟨hr, hk⟩)
          · exact Or.inl hs
          · exact Or.inr ⟨Or.inl hkv, hkv ▸ h1⟩
          · exact absurd hnil (List.not_mem_nil k)
          · exact Or.inr ⟨Or.inr hr, hk⟩
        · rintro (hs | ⟨hkr, hk⟩)
          · exact Or.inl (Or.inl hs)
          · rcases hkr with hkv | hr
            · exact Or.inl (Or.inr (Or.inl hkv))
            · exact Or.inr ⟨hr, hk⟩

theorem allocStep_wf (s : List (ℚ × Nat)) (v : ℚ)
    (hids : s.map Prod.snd = (List.range s.length).map (fun k => (k + 1) % 256))
    (hnd : (s.map Prod.fst).Nodup) :
    ((allocStep s v).1.map Prod.snd =
        (List.range (allocStep s v).1.length).map (fun k => (k + 1) % 256))
    ∧ ((allocStep s v).1.map Prod.fst).Nodup := by
  by_cases h1 : v = 1
  · simp only [allocStep, if_pos h1]
    exact ⟨hids, hnd⟩
  · cases hl : s.lookup v with
    | some b =>
      simp only [allocStep, if_neg h1, hl]
      exact ⟨hids, hnd⟩
    | none =>
      have hv : v ∉ s.map Prod.fst := lookup_none_iff.mp hl
      simp only [allocStep, if_neg h1, hl]
      constructor
      · simp only [List.map_append, List.map_cons, List.map_nil,
          List.length_append, List.length_cons, List.length_nil, hids]
        rw [show s.length + (0 + 1) = s.length + 1 by omega, List.range_succ]
        simp
      · simp only [List.map_append, List.map_cons, List.map_nil]
        rw [List.nodup_append]
        exact ⟨hnd, List.nodup_singleton v, by simpa using hv⟩

theorem allocFold_wf (vs : List ℚ) (s : List (ℚ × Nat))
    (hids : s.map Prod.snd = (List.range s.length).map (fun k => (k + 1) % 256))
    (hnd : (s.map Prod.fst).Nodup) :
    ((allocFold s vs).map Prod.snd =
        (List.range (allocFold s vs).length).map (fun k => (k + 1) % 256))
    ∧ ((allocFold s vs).map Prod.fst).Nodup := by
  induction vs generalizing s with
  | nil => exact ⟨hids, hnd⟩
  | cons v rest ih =>
    rw [allocFold_cons]
    have hstep := allocStep_wf s v hids hnd
    exact ih _ hstep.1 hstep.2

theorem mem_of_lookup_some {l : List (ℚ × Nat)} {k : ℚ} {a : Nat}
    (h : l.lookup k = some a) : (k, a) ∈ l := by
  induction l with
  | nil => simp [List.lookup] at h
  | cons p rest ih =>
    rcases p with ⟨k1, b1⟩
    cases hk : (k == k1) with
    | true =>
      simp only [List.lookup, hk] at h
      have hkk : k = k1 := by simpa using hk
      cases h
      simp [hkk]
    | false =>
      simp only [List.lookup, hk] at h
      exact List.mem_cons_of_mem _ (ih h)

theorem lookup_id_of_wf {l : List (ℚ × Nat)} {k : ℚ} {a : Nat}
    (hids : l.map Prod.snd = (List.range l.length).map (fun j => (j + 1) % 256))
    (h : l.lookup k = some a) :
    ∃ idx, idx < l.length ∧ l[idx]? = some (k, a) ∧ a = (idx + 1) % 256 := by
  have hmem : (k, a) ∈ l := mem_of_lookup_some h
  obtain ⟨idx, hidx, heq⟩ := List.mem_iff_getElem.mp hmem
  refine ⟨idx, hidx, by simp [List.getElem?_eq_getElem hidx, heq], ?_⟩
  have hsnd : (l.map Prod.snd)[idx]? = some a := by
    simp [List.getElem?_map, List.getElem?_eq_getElem hidx, heq]
  rw [hids] at hsnd
  simp [List.getElem?_map, List.getElem?_range hidx] at hsnd
  omega

theorem lookup_distinct_ids {l : List (ℚ × Nat)} {k1 k2 : ℚ} {a1 a2 : Nat}
    (hids : l.map Prod.snd = (List.range l.length).map (fun j => (j + 1) % 256))
    (hlen : l.length ≤ 255)
    (h1 : l.lookup k1 = some a1) (h2 : l.lookup k2 = some a2)
    (hk : k1 ≠ k2) : a1 ≠ a2 := by
  obtain ⟨i1, hi1, he1, ha1⟩ := lookup_id_of_wf hids h1
  obtain ⟨i2, hi2, he2, ha2⟩ := lookup_id_of_wf hids h2
  have hne : i1 ≠ i2 := by
    intro hcon
    subst hcon
    rw [he1] at he2
    exact hk (by simpa using congrArg (fun o => Option.map Prod.fst o) he2)
  have hm1 : (i1 + 1) % 256 = i1 + 1 := Nat.mod_eq_of_lt (by omega)
  have hm2 : (i2 + 1) % 256 = i2 + 1 := Nat.mod_eq_of_lt (by omega)
  omega

theorem allocFold_length (vs : List ℚ) :
    (allocFold [] vs).length = (distinctOpacities vs).length := by
  have hwf := allocFold_wf vs [] (by simp) (by simp)
  have hmem : ∀ k, k ∈ (allocFold [] vs).map Prod.fst ↔ k ∈ vs ∧ k ≠ 1 := by
    intro k
    simpa using mem_keys_allocFold vs [] k
  have hmem2 : ∀ k, k ∈ distinctOpacities vs ↔ k ∈ vs ∧ k ≠ 1 := by
    intro k
    simp [distinctOpacities, List.mem_dedup, List.mem_filter]
  have hnd2 : (distinctOpacities vs).Nodup := by
    rw [distinctOpacities]
    exact List.nodup_dedup _
  have hperm : List.Perm ((allocFold [] vs).map Prod.fst) (distinctOpacities vs) := by
    rw [List.perm_ext_iff_of_nodup hwf.2 hnd2]
    intro k
    rw [hmem, hmem2]
  have hl := hperm.length_eq
  simpa using hl

theorem not_mem_take_of_fresh (vs : List ℚ) (j : Nat) (v : ℚ)
    (hfresh : ∀ i, i < j → vs[i]? ≠ some v) : v ∉ vs.take j := by
  intro hmem
  obtain ⟨i, hi, heq⟩ := List.mem_iff_getElem.mp hmem
  have hlt : i < j := by
    have := hi
    simp [List.length_take] at this
    omega
  exact hfresh i hlt (by
    have hsome : (vs.take j)[i]? = some v := by
      simp [List.getElem?_eq_getElem hi, heq]
    rwa [List.getElem?_take_of_lt hlt] at hsome)

theorem getElem?_lt_length {α : Type} {l : List α} {i : Nat} {x : α}
    (h : l[i]? = some x) : i < l.length := by
  by_contra hc
  rw [List.getElem?_eq_none (by omega)] at h
  exact Option.noConfusion h

theorem allocTrace_one (vs : List ℚ) (j : Nat) (hv : vs[j]? = some 1) :
    (allocTrace vs)[j]? = some (0, false) := by
  rw [allocTrace, allocTraceFrom_getElem vs [] j 1 hv]
  simp [allocStep]

theorem allocTrace_fresh (vs : List ℚ) (j : Nat) (v : ℚ)
    (hv : vs[j]? = some v) (h1 : v ≠ 1)
    (hfresh : ∀ i, i < j → vs[i]? ≠ some v) :
    (allocTrace vs)[j]? =
      some (((distinctOpacities (vs.take j)).length + 1) % 256, true) := by
  have hnotm : v ∉ vs.take j := not_mem_take_of_fresh vs j v hfresh
  have hnone : (allocFold [] (vs.take j)).lookup v = none := by
    rw [lookup_none_iff]
    intro hkm
    exact hnotm ((mem_keys_allocFold (vs.take j) [] v).mp (by simpa using hkm)
      |>.resolve_left (by simp)).1
  rw [allocTrace, allocTraceFrom_getElem vs [] j v hv]
  simp [allocStep, h1, hnone, allocFold_length (vs.take j)]

theorem allocFold_succ_self_lookup (vs : List ℚ) (i : Nat) (v : ℚ)
    (hv : vs[i]? = some v) (h1 : v ≠ 1) :
    (allocFold [] (vs.take (i + 1))).lookup v =
      some ((allocStep (allocFold [] (vs.take i)) v).2.1) := by
  rw [List.take_succ, hv]
  simp only [Option.toList_some]
  rw [allocFold_append]
  simpa [allocFold] using allocStep_self_lookup (allocFold [] (vs.take i)) v h1

theorem allocTrace_id_lookup (vs : List ℚ) (i : Nat) (v : ℚ) (a : Nat) (b : Bool)
    (hv : vs[i]? = some v) (h1 : v ≠ 1)
    (he : (allocTrace vs)[i]? = some (a, b)) :
    (allocFold [] vs).lookup v = some a := by
  rw [allocTrace, allocTraceFrom_getElem vs [] i v hv] at he
  have ha : (allocStep (allocFold [] (vs.take i)) v).2.1 = a := by
    have := congrArg (fun o => (o.map Prod.fst).getD 0) he
    simpa using this
  have hstep : (allocFold [] (vs.take (i + 1))).lookup v = some a := by
    rw [allocFold_succ_self_lookup vs i v hv h1, ha]
  have hlen : i + 1 ≤ vs.length := getElem?_lt_length hv
  have hmono := allocFold_take_lookup_mono vs v a
    (show i + 1 ≤ vs.length from hlen) hstep
  rwa [List.take_length] at hmono

/-! ## C6: the register reuse law -/

/-- C6 amended: within one icon, two requests with the same opacity
value in (0,1) get the same register id, and only the first issues a
define effect; opacity 1 always gets sentinel id 0 with no effect; a
first-seen value gets id `(number of previously seen distinct values + 1)
mod 256` with a define effect — so ids go 1, 2, 3, … in first-seen
order — and distinct values receive distinct ids provided the icon has
at most 255 distinct non-default opacities (beyond that the id
wraps, see the register-overflow claim). -/
theorem C6_theorem (vs : List ℚ) :
    (∀ (i j : Nat) (v : ℚ), i < j → vs[i]? = some v → vs[j]? = some v → v ≠ 1 →
      ∃ (a : Nat) (b : Bool),
        (allocTrace vs)[i]? = some (a, b) ∧ (allocTrace vs)[j]? = some (a, false))
    ∧ (∀ j : Nat, vs[j]? = some 1 → (allocTrace vs)[j]? = some (0, false))
    ∧ (∀ (j : Nat) (v : ℚ), vs[j]? = some v → v ≠ 1 →
        (∀ i, i < j → vs[i]? ≠ some v) →
      (allocTrace vs)[j]? =
        some (((distinctOpacities (vs.take j)).length + 1) % 256, true))
    ∧ (∀ (i j : Nat) (vi vj : ℚ) (ai : Nat) (bi : Bool) (aj : Nat) (bj : Bool),
        vs[i]? = some vi → vs[j]? = some vj →
        vi ≠ 1 → vj ≠ 1 → vi ≠ vj → (distinctOpacities vs).length ≤ 255 →
        (allocTrace vs)[i]? = some (ai, bi) → (allocTrace vs)[j]? = some (aj, bj) →
        ai ≠ aj) := by
  refine ⟨?_, fun j hv => allocTrace_one vs j hv,
    fun j v hv h1 hf => allocTrace_fresh vs j v hv h1 hf, ?_⟩
  · intro i j v hij hvi hvj h1
    have hei : (allocTrace vs)[i]? =
        some ((allocStep (allocFold [] (vs.take i)) v).2.1,
          !(allocStep (allocFold [] (vs.take i)) v).2.2.isEmpty) := by
      rw [allocTrace]
      exact allocTraceFrom_getElem vs [] i v hvi
    have hstep := allocFold_succ_self_lookup vs i v hvi h1
    have hmono := allocFold_take_lookup_mono vs v
      ((allocStep (allocFold [] (vs.take i)) v).2.1) (show i + 1 ≤ j by omega) hstep
    have hej : (allocTrace vs)[j]? =
        some ((allocStep (allocFold [] (vs.take i)) v).2.1, false) := by
      rw [allocTrace, allocTraceFrom_getElem vs [] j v hvj]
      simp [allocStep, h1, hmono]
    exact ⟨_, _, hei, hej⟩
  · intro i j vi vj ai bi aj bj hvi hvj h1i h1j hne hbound hei hej
    have hli := allocTrace_id_lookup vs i vi ai bi hvi h1i hei
    have hlj := allocTrace_id_lookup vs j vj aj bj hvj h1j hej
    have hwf := allocFold_wf vs [] (by simp) (by simp)
    have hlen : (allocFold [] vs).length ≤ 255 := by
      rw [allocFold_length]
      exact hbound
    exact lookup_distinct_ids hwf.1 hlen hli hlj hne

/-- C6 witness: the run `[1/2, 1, 1/2]` — the two 0.5 requests share an
id and the second issues no define effect. -/
theorem C6_witness :
    ∃ (a : Nat) (b : Bool), (allocTrace [1/2, 1, 1/2])[0]? = some (a, b)
      ∧ (allocTrace [1/2, 1, 1/2])[2]? = some (a, false) :=
  (C6_theorem [1/2, 1, 1/2]).1 0 2 (1/2) (by omega) rfl rfl (by norm_num)

theorem ov_inj : Function.Injective (fun n : ℕ => ((n : ℚ) + 1) / 257) := by
  intro a b h
  simp only at h
  field_simp at h
  exact_mod_cast h

theorem ovList_getElem_lt (i : Nat) (hi : i < 256) :
    ovList[i]? = some (((i : ℚ) + 1) / 257) := by
  rw [ovList, List.getElem?_append]
  simp only [List.length_map, List.length_range]
  rw [if_pos hi]
  simp [List.getElem?_map, List.getElem?_range hi]

theorem ovList_getElem_256 : ovList[256]? = some (1 : ℚ) := by
  rw [ovList, List.getElem?_append]
  simp only [List.length_map, List.length_range]
  rw [if_neg (by omega)]
  simp

theorem ovList_take_255 :
    (distinctOpacities (ovList.take 255)).length = 255 := by
  have htake : ovList.take 255 =
      (List.range 255).map (fun n : ℕ => ((n : ℚ) + 1) / 257) := by
    rw [ovList, List.take_append_eq_append_take]
    simp only [List.length_map, List.length_range]
    rw [show 255 - 256 = 0 by omega]
    simp only [List.take_zero, List.append_nil, ← List.map_take, List.take_range]
    rw [show min 255 256 = 255 by omega]
  rw [htake, distinctOpacities]
  have hfil : ((List.range 255).map (fun n : ℕ => ((n : ℚ) + 1) / 257)).filter
      (fun v => v ≠ 1) = (List.range 255).map (fun n : ℕ => ((n : ℚ) + 1) / 257) := by
    rw [List.filter_eq_self]
    intro a ha
    obtain ⟨k, hk, hkeq⟩ := List.mem_map.mp ha
    subst hkeq
    simp only [decide_eq_true_eq]
    intro hcon
    have hkr : k < 255 := List.mem_range.mp hk
    field_simp at hcon
    have hq : (k : ℚ) = 256 := by linarith
    have : k = 256 := by exact_mod_cast hq
    omega
  rw [hfil]
  have hnd : ((List.range 255).map (fun n : ℕ => ((n : ℚ) + 1) / 257)).Nodup :=
    (List.nodup_range 255).map ov_inj
  rw [List.dedup_eq_self.mpr hnd]
  simp

theorem ovList_fresh (i : Nat) (hi : i < 255) :
    ovList[i]? ≠ some ((256 : ℚ) / 257) := by
  rw [ovList_getElem_lt i (by omega)]
  intro hcon
  have heq : ((i : ℚ) + 1) / 257 = (256 : ℚ) / 257 := by
    simpa using hcon
  field_simp at heq
  have hq : (i : ℚ) = 255 := by linarith
  have : i = 255 := by exact_mod_cast hq
  omega

/-- C6 counterexample: with 256 distinct non-default opacities in one
icon, the claim fails: the 256th distinct value receives register id 0 —
not a fresh id in first-seen order starting at 1 — colliding with the
sentinel id that a later opacity-1 request receives, so two distinct
values share an id. -/
theorem C6_counterexample :
    (allocTrace ovList)[255]? = some (0, true)
      ∧ (allocTrace ovList)[256]? = some (0, false)
      ∧ ((256 : ℚ) / 257) ≠ 1 := by
  refine ⟨?_, ?_, by norm_num⟩
  · have h255 : ovList[255]? = some ((256 : ℚ) / 257) := by
      rw [ovList_getElem_lt 255 (by omega)]
      norm_num
    have hfr := allocTrace_fresh ovList 255 ((256 : ℚ) / 257) h255 (by norm_num)
      (fun i hilt => ovList_fresh i hilt)
    rwa [ovList_take_255] at hfr
  · exact allocTrace_one ovList 256 ovList_getElem_256

/-! ## Emission-shape lemmas for the per-shape path structure -/

theorem emitOp_snd (op : Char) (a : List ℚ) (adj : Nat) (st : Bool) :
    (emitOp op a adj st).2 = (st || decide (op = 'M')) := by
  unfold emitOp
  split <;> first
    | (split <;> simp_all)
    | simp_all

theorem emitOp_start_count (op : Char) (a : List ℚ) (adj : Nat) (st : Bool) :
    (emitOp op a adj st).1.countP (fun c => isStartPath c) =
      if op = 'M' ∧ st = false then 1 else 0 := by
  unfold emitOp
  split <;> first
    | (split <;> simp_all [List.countP_cons, isStartPath])
    | simp_all [List.countP_cons, isStartPath]

theorem emitOp_no_other (op : Char) (a : List ℚ) (adj : Nat) (st : Bool) :
    ∀ c ∈ (emitOp op a adj st).1, isSetCReg c = false ∧ isCloseEnd c = false := by
  unfold emitOp
  split <;> first
    | (split <;> simp_all [isSetCReg, isCloseEnd])
    | simp_all [isSetCReg, isCloseEnd]

theorem emitOp_M_fresh (a : List ℚ) (adj : Nat) :
    emitOp 'M' a adj false = ([.startPath adj (a.getD 0 0) (a.getD 1 0)], true) := by
  simp [emitOp]

theorem gpdLoop_inv (fuel : Nat) :
    ∀ (r : Rdr) (op : Char) (rel st0 : Bool) (args : List ℚ) (adj : Nat)
      (size : ℚ) (offset : ℚ × ℚ) (cs : List Cmd) (st : Bool),
      gpdLoop fuel r op rel st0 args adj size offset = .ok (cs, st) →
      (st0 = true → st = true)
      ∧ (cs.countP (fun c => isStartPath c) =
          if st0 = false ∧ st = true then 1 else 0)
      ∧ (∀ c ∈ cs, isSetCReg c = false ∧ isCloseEnd c = false) := by
  induction fuel with
  | zero =>
    intro r op rel st0 args adj size offset cs st h
    simp [gpdLoop] at h
  | succ fuel ih =>
    intro r op rel st0 args adj size offset cs st h
    simp only [gpdLoop] at h
    split at h
    · cases h
      exact ⟨fun hst => hst, by simp, by simp⟩
    · rename_i b r1 heq
      split at h
      · exact ih r1 op rel st0 args adj size offset cs st h
      · generalize hX : selOp b op rel r1 = X at h
        split at h
        · exact absurd h (by simp)
        · rename_i n harity
          split at h
          · exact absurd h (by simp)
          · rename_i rest2 stR hrec
            cases h
            obtain ⟨ihmono, ihcount, ihmem⟩ :=
              ih _ _ _ _ _ _ _ _ _ _ hrec
            rw [emitOp_snd] at ihmono ihcount
            refine ⟨?_, ?_, ?_⟩
            · intro hst0
              exact ihmono (by simp [hst0])
            · rw [List.countP_append, emitOp_start_count]
              cases st0 with
              | true =>
                have hstR : st = true := ihmono (by simp)
                have hr2 : List.countP (fun c => isStartPath c) rest2 = 0 := by
                  rw [ihcount]
                  simp
                simp [hr2, hstR]
              | false =>
                by_cases hM : X.1 = 'M'
                · have hstR : st = true := ihmono (by simp [hM])
                  have hr2 : List.countP (fun c => isStartPath c) rest2 = 0 := by
                    rw [ihcount]
                    simp [hM]
                  simp [hr2, hstR, hM]
                · have hr2 : List.countP (fun c => isStartPath c) rest2 =
                      if st = true then 1 else 0 := by
                    rw [ihcount]
                    simp [hM]
                  simp [hr2, hM]
            · intro c hc
              rcases List.mem_append.mp hc with hc1 | hc2
              · exact emitOp_no_other _ _ _ _ c hc1
              · exact ihmem c hc2

theorem gpdLoop_head_M (fuel : Nat) :
    ∀ (r : Rdr) (op : Char) (rel : Bool) (args : List ℚ) (adj : Nat)
      (size : ℚ) (offset : ℚ × ℚ) (cs : List Cmd) (st : Bool),
      firstNonSpace (r.s.drop r.i) = some 'M' →
      gpdLoop fuel r op rel false args adj size offset = .ok (cs, st) →
      ∃ x y rest, cs = Cmd.startPath adj x y :: rest := by
  induction fuel with
  | zero =>
    intro r op rel args adj size offset cs st hfs h
    simp [gpdLoop] at h
  | succ fuel ih =>
    intro r op rel args adj size offset cs st hfs h
    simp only [gpdLoop] at h
    cases hget : r.s[r.i]? with
    | none =>
      rw [List.drop_eq_nil_of_le (by
        by_contra hc
        rw [List.getElem?_eq_getElem (by omega)] at hget
        exact Option.noConfusion hget)] at hfs
      simp [firstNonSpace] at hfs
    | some c =>
      have hlt : r.i < r.s.length := getElem?_lt_length hget
      have hdrop : r.s.drop r.i = c :: r.s.drop (r.i + 1) := by
        rw [List.drop_eq_getElem_cons hlt]
        congr 1
        have := List.getElem?_eq_getElem hlt
        rw [hget] at this
        exact (Option.some.injEq _ _).mp this.symm
      rw [hdrop] at hfs
      simp only [rdRead, hget] at h
      by_cases hsp : c = ' '
      · subst hsp
        simp only [firstNonSpace, List.dropWhile_cons, if_pos rfl] at hfs
        rw [if_pos rfl] at h
        exact ih ⟨r.s, r.i + 1⟩ op rel args adj size offset cs st
          (by simpa [firstNonSpace] using hfs) h
      · have hcM : c = 'M' := by
          simp only [firstNonSpace, List.dropWhile_cons] at hfs
          rw [if_neg (by simpa using hsp)] at hfs
          simpa using hfs
        subst hcM
        rw [if_neg hsp] at h
        have hsel : selOp 'M' op rel ⟨r.s, r.i + 1⟩ = ('M', false, ⟨r.s, r.i + 1⟩) := by
          simp [selOp]
        rw [hsel] at h
        dsimp only at h
        split at h
        · rename_i harity
          simp [arity] at harity
        · rename_i n harity
          have hn : n = 2 := by
            simp [arity] at harity
            omega
          subst hn
          split at h
          · exact absurd h (by simp)
          · rename_i rest2 stR hrec
            rw [emitOp_M_fresh] at h
            cases h
            exact ⟨_, _, _, rfl⟩
theorem circleSteps_no_other (adj : Nat) (size : ℚ) (offset : ℚ × ℚ) :
    ∀ (circles : List Circle) (need : Bool),
      ∀ c ∈ circleSteps adj size offset need circles,
        isSetCReg c = false ∧ isCloseEnd c = false := by
  intro circles
  induction circles with
  | nil => intro need c hc; simp [circleSteps] at hc
  | cons cc rest ih =>
    intro need c hc
    simp only [circleSteps, List.mem_cons] at hc
    rcases hc with h1 | h2 | h3 | h4
    · subst h1
      cases need <;> simp [isSetCReg, isCloseEnd]
    · subst h2; simp [isSetCReg, isCloseEnd]
    · subst h3; simp [isSetCReg, isCloseEnd]
    · exact ih false c h4

theorem circleSteps_start_count (adj : Nat) (size : ℚ) (offset : ℚ × ℚ) :
    ∀ (circles : List Circle) (need : Bool),
      (circleSteps adj size offset need circles).countP (fun c => isStartPath c) =
        if need = true ∧ circles ≠ [] then 1 else 0 := by
  intro circles
  induction circles with
  | nil => intro need; simp [circleSteps]
  | cons cc rest ih =>
    intro need
    simp only [circleSteps, List.countP_cons]
    rw [ih false]
    cases need <;> simp [isStartPath]

theorem circleSteps_head (adj : Nat) (size : ℚ) (offset : ℚ × ℚ)
    (cc : Circle) (rest : List Circle) :
    ∃ x y other,
      circleSteps adj size offset true (cc :: rest) = Cmd.startPath adj x y :: other := by
  exact ⟨_, _, _, rfl⟩

theorem allocStep_cmds_shape (s : List (ℚ × Nat)) (v : ℚ) :
    (allocStep s v).2.2 = [] ∨
      ∃ a t, (allocStep s v).2.2 = [Cmd.setCReg a false t 0x7f 0x80] := by
  by_cases h1 : v = 1
  · left; simp [allocStep, h1]
  · cases hl : s.lookup v with
    | some b => left; simp [allocStep, h1, hl]
    | none =>
      right
      exact ⟨(s.length + 1) % 256, truncU8 (v * 255), by simp [allocStep, h1, hl]⟩

theorem genPathData_run (adj : Nat) (d : List Char) (size : ℚ) (offset : ℚ × ℚ)
    (cmds : List Cmd) (h : genPathData adj d size offset = .ok cmds) :
    ∃ st, gpdLoop (pdFuel (stripZ d)) ⟨stripZ d, 0⟩ (Char.ofNat 0) false false
        [0, 0, 0, 0, 0, 0] adj size offset = .ok (cmds, st) := by
  rw [genPathData] at h
  cases hrun : gpdLoop (pdFuel (stripZ d)) ⟨stripZ d, 0⟩ (Char.ofNat 0) false false
      [0, 0, 0, 0, 0, 0] adj size offset with
  | error e => rw [hrun] at h; exact absurd h (by simp [Except.map])
  | ok pr =>
    rw [hrun] at h
    rcases pr with ⟨cs, st⟩
    simp only [Except.map, Except.ok.injEq] at h
    exact ⟨st, by rw [h]⟩

theorem getLast?_append_some {l1 l2 : List Cmd} {x : Cmd}
    (h : l2.getLast? = some x) : (l1 ++ l2).getLast? = some x := by
  rw [List.getLast?_append, h]
  rfl

theorem countP_zero_of_false {l : List Cmd} {p : Cmd → Bool}
    (h : ∀ c ∈ l, p c = false) : l.countP p = 0 := by
  rw [List.countP_eq_zero]
  intro a ha
  simp [h a ha]


theorem setCReg_not_other {c : Cmd} (h : isSetCReg c = true) :
    isStartPath c = false ∧ isCloseEnd c = false := by
  cases c <;> simp_all [isSetCReg, isStartPath, isCloseEnd]

theorem allocStep_cmds_setCReg (s : List (ℚ × Nat)) (v : ℚ) :
    ∀ c ∈ (allocStep s v).2.2, isSetCReg c = true := by
  rcases allocStep_cmds_shape s v with hz | ⟨a, t, hsc⟩ <;> intro c hc
  · rw [hz] at hc
    simp at hc
  · rw [hsc] at hc
    simp at hc
    subst hc
    simp [isSetCReg]

theorem filter_nil_of_false {l : List Cmd} {p : Cmd → Bool}
    (h : ∀ c ∈ l, p c = false) : l.filter p = [] := by
  induction l with
  | nil => rfl
  | cons a rest ih =>
    rw [List.filter_cons, if_neg (by simp [h a (by simp)])]
    exact ih (fun c hc => h c (by simp [hc]))

/-- C9 amended: a successfully emitted shape whose path data
(after stripping a trailing lowercase z) starts with `M` after spaces, or
which has circles and no path data, begins (ignoring the register define
effect) with exactly one start-path and ends with exactly one
close-and-end-path. -/
theorem C9_theorem (p : Path) (adjs : List (ℚ × Nat)) (size : ℚ) (offset : ℚ × ℚ)
    (circles : List Circle) (cmds : List Cmd) (adjs2 : List (ℚ × Nat))
    (h : genPath p adjs size offset circles = .ok (cmds, adjs2))
    (hcond : (p.d ≠ [] ∧ firstNonSpace (stripZ p.d) = some 'M')
           ∨ (p.d = [] ∧ circles ≠ [])) :
    ((cmds.filter (fun c => !isSetCReg c)).head?.map (fun c => isStartPath c) = some true)
    ∧ cmds.countP (fun c => isStartPath c) = 1
    ∧ cmds.getLast? = some Cmd.closePathEndPath
    ∧ cmds.countP (fun c => isCloseEnd c) = 1 := by
  simp only [genPath] at h
  split at h
  · exact absurd h (by simp)
  · rename_i dataCmds heq
    cases h
    have halS := allocStep_cmds_setCReg adjs (resolveOpacity p)
    have halStart : ∀ c ∈ (allocStep adjs (resolveOpacity p)).2.2,
        isStartPath c = false := fun c hc => (setCReg_not_other (halS c hc)).1
    have halClose : ∀ c ∈ (allocStep adjs (resolveOpacity p)).2.2,
        isCloseEnd c = false := fun c hc => (setCReg_not_other (halS c hc)).2
    have halFil : (allocStep adjs (resolveOpacity p)).2.2.filter
        (fun c => !isSetCReg c) = [] :=
      filter_nil_of_false (fun c hc => by simp [halS c hc])
    rcases hcond with ⟨hd, hM⟩ | ⟨hd, hc⟩
    · rw [if_neg hd] at heq
      obtain ⟨st, hrun⟩ := genPathData_run _ _ _ _ _ heq
      obtain ⟨x, y, rest, hhead⟩ := gpdLoop_head_M _ _ _ _ _ _ _ _ _ _
        (by simpa using hM) hrun
      obtain ⟨hmono, hcount, hmem⟩ := gpdLoop_inv _ _ _ _ _ _ _ _ _ _ _ hrun
      have hdec : decide (p.d = []) = false := by simp [hd]
      have hst : st = true := by
        cases hstc : st with
        | true => rfl
        | false =>
          rw [hstc, hhead] at hcount
          simp [List.countP_cons, isStartPath] at hcount
      rw [hst] at hcount
      simp only [and_self, if_pos rfl, eq_self_iff_true, true_and] at hcount
      have hcount1 : dataCmds.countP (fun c => isStartPath c) = 1 := by
        simpa using hcount
      have hdataFil : dataCmds.filter (fun c => !isSetCReg c) = dataCmds :=
        List.filter_eq_self.mpr (fun c hcm => by simp [(hmem c hcm).1])
      have hdf2 : (Cmd.startPath ((allocStep adjs (resolveOpacity p)).2.1) x y
          :: rest).filter (fun c => !isSetCReg c) =
          Cmd.startPath ((allocStep adjs (resolveOpacity p)).2.1) x y :: rest := by
        rw [← hhead]
        exact hdataFil
      refine ⟨?_, ?_, ?_, ?_⟩
      · rw [hhead]
        simp only [List.filter_append, halFil, hdf2, List.nil_append]
        simp [List.cons_append, isStartPath]
      · rw [hdec]
        simp only [List.countP_append]
        rw [countP_zero_of_false halStart, hcount1, circleSteps_start_count]
        simp [isStartPath]
      · exact List.getLast?_concat _
      · rw [hdec]
        simp only [List.countP_append]
        rw [countP_zero_of_false halClose,
          countP_zero_of_false (fun c hcm => (hmem c hcm).2),
          countP_zero_of_false (fun c hcm =>
            (circleSteps_no_other _ size offset circles false c hcm).2)]
        simp [isCloseEnd]
    · rw [if_pos hd] at heq
      have hdata : dataCmds = [] := by
        simpa using heq.symm
      subst hdata
      have hdec : decide (p.d = []) = true := by simp [hd]
      obtain ⟨cc, crest, hcir⟩ := List.exists_cons_of_ne_nil hc
      obtain ⟨x, y, other, hcsteps⟩ := circleSteps_head
        ((allocStep adjs (resolveOpacity p)).2.1) size offset cc crest
      have hcs := circleSteps_start_count
        ((allocStep adjs (resolveOpacity p)).2.1) size offset circles true
      rw [if_pos (by exact ⟨rfl, hc⟩)] at hcs
      refine ⟨?_, ?_, ?_, ?_⟩
      · rw [hdec, hcir, hcsteps]
        have hfcons : (Cmd.startPath ((allocStep adjs (resolveOpacity p)).2.1) x y
            :: other).filter (fun c => !isSetCReg c) =
            Cmd.startPath ((allocStep adjs (resolveOpacity p)).2.1) x y
              :: other.filter (fun c => !isSetCReg c) := by
          rw [List.filter_cons]
          simp [isSetCReg]
        simp only [List.filter_append, halFil, hfcons, List.nil_append,
          List.append_nil]
        simp [List.cons_append, isStartPath]
      · rw [hdec]
        simp only [List.countP_append]
        rw [countP_zero_of_false halStart, hcs]
        simp [isStartPath]
      · exact List.getLast?_concat _
      · rw [hdec]
        simp only [List.countP_append]
        rw [countP_zero_of_false halClose,
          countP_zero_of_false (fun c hcm =>
            (circleSteps_no_other _ size offset circles true c hcm).2)]
        simp [isCloseEnd]

/-- C9 counterexample: a shape with empty path data and no circles is
not skipped (the skip table keys on specific non-empty path strings) and
emits only the unconditional close-and-end-path — its command sequence
does not begin with a start-path. -/
theorem C9_counterexample :
    genPath ⟨[], [], none, none⟩ [] 24 (0, 0) [] = .ok ([Cmd.closePathEndPath], [])
      ∧ isStartPath Cmd.closePathEndPath = false := by
  exact ⟨by with_unfolding_all rfl, rfl⟩

/-- C9 witness: the theorem at the shape `"M 1 2"` with no circles. -/
theorem C9_witness :
    (([Cmd.startPath 0 (-22) (-20), Cmd.closePathEndPath].filter
        (fun c => !isSetCReg c)).head?.map (fun c => isStartPath c) = some true)
    ∧ [Cmd.startPath 0 (-22) (-20), Cmd.closePathEndPath].countP
        (fun c => isStartPath c) = 1
    ∧ [Cmd.startPath 0 (-22) (-20), Cmd.closePathEndPath].getLast? =
        some Cmd.closePathEndPath
    ∧ [Cmd.startPath 0 (-22) (-20), Cmd.closePathEndPath].countP
        (fun c => isCloseEnd c) = 1 := by
  have h : genPath ⟨"M 1 2".toList, [], none, none⟩ [] 24 (0, 0) [] =
      .ok ([Cmd.startPath 0 (-22) (-20), Cmd.closePathEndPath], []) := by
    with_unfolding_all rfl
  exact C9_theorem ⟨"M 1 2".toList, [], none, none⟩ [] 24 (0, 0) [] _ _ h
    (Or.inl ⟨by decide, by rfl⟩)

end ShinyGen
